import Mathlib

set_option maxHeartbeats 1000000

/-!
Verification of the myCat repository against its specification.

The development shallowly embeds the Python sources:

* `src/main.py` — the GTK two-frame blink variant (`PixelCatWindow.on_tick`,
  the CLI timing clamps, JSON position persistence, `main` exit codes);
* `src/mycat/main.py` — the PySide6 GIF variant (the png/gif animation
  engine, GIF frame-delay parsing and its defaults, INI config persistence,
  `load_packaged_images` error handling);
* `src/mycat/llm_ollama.py`, `src/mycat/llm_openai.py` — the chat backends;
* `src/mycat/llm_prompt.py` — chat history persistence.

Python floats that only ever hold wall-clock times and second counts are
modelled as rationals; machine strings are modelled as `String` or
`List Char`.  GUI objects (pixbufs, movies, windows) are modelled by small
inductive types that record exactly the information the claims are about.
-/

/-! ### Two-frame blink engine (`src/main.py`) -/

/-- The two pixbufs sliced from the sprite sheet (`slice_sprite_to_pixbufs`). -/
inductive BlinkFrame
  | openPb
  | closedPb
deriving DecidableEq, Repr

/-- The value of `self.state` in the blink window: the source uses the
strings "open" and "closed". -/
inductive BlinkPhase
  | openEyes
  | closedEyes
deriving DecidableEq, Repr

/-- Timing configuration fixed in `PixelCatWindow.__init__` (`src/main.py`,
lines 171-172): `open_sec` and `closed_sec` after clamping. -/
structure BlinkConfig where
  open_sec : ℚ
  closed_sec : ℚ
deriving DecidableEq, Repr

/-- The mutable animation state of the blink window: `self.state`,
`self.current` (the displayed pixbuf) and `self.next_change`. -/
structure BlinkState where
  state : BlinkPhase
  current : BlinkFrame
  next_change : ℚ
deriving DecidableEq, Repr

/-- `PixelCatWindow.on_tick` (`src/main.py`, lines 234-246).  The source
branches on `self.state == "open"`; with only the two states ever assigned,
the `else` branch is the "closed" case. -/
def on_tick (cfg : BlinkConfig) (now : ℚ) (s : BlinkState) : BlinkState :=
  if s.next_change ≤ now then
    match s.state with
    | .openEyes =>
        { state := .closedEyes, current := .closedPb
          next_change := now + cfg.closed_sec }
    | .closedEyes =>
        { state := .openEyes, current := .openPb
          next_change := now + cfg.open_sec }
  else s

/-- The clamp applied to the `--open` and `--closed` CLI values in
`PixelCatWindow.__init__` (`src/main.py`, lines 171-172):
`max(0.05, float(v))`. -/
def effective_blink_sec (v : ℚ) : ℚ := max (1/20) v

/-! ### Manual GIF Graphic Control Extension delay interpretation
(`src/mycat/main.py`, `parse_gif_duration`, lines 186-198) -/

/-- The clamp on a decoded nonzero per-frame duration (seconds):
`if duration < 0.01: duration = 0.1`. -/
def clamp_gce_duration (d : ℚ) : ℚ := if d < 1/100 then 1/10 else d

/-- Seconds contributed by one Graphic Control Extension whose encoded
16-bit delay field (hundredths of a second) is `delay`: a zero delay takes
the 0.1 s default, a nonzero delay is `delay / 100` after clamping. -/
def gce_delay_duration (delay : ℕ) : ℚ :=
  if delay = 0 then 1/10 else clamp_gce_duration ((delay : ℚ) / 100)

/-! ### GIF frame-delay parsing and its defaults (`src/mycat/main.py`) -/

/-- `parse_gif_frame_delays` (`src/mycat/main.py`, lines 94-123).  The
Pillow view of the GIF is abstracted as `img`: `none` models the paths
that return an empty list before any frame is visited (Pillow not
importable, an image without an `n_frames` attribute, or any exception
while decoding); `some frames` gives, per frame, the optional `duration`
entry of `img.info` in milliseconds, read as `img.info.get('duration', 100)`. -/
def parse_gif_frame_delays (img : Option (List (Option ℕ))) : List ℕ :=
  match img with
  | none => []
  | some frames => frames.map (fun d => d.getD 100)

/-- `parse_gif_duration_pillow_fallback` (`src/mycat/main.py`, lines
273-284).  It first calls `parse_gif_frame_delays`; the manual-parsing
fallback announced by its docstring is an empty stub (the body holds only
a comment), so when Pillow yields no delays the function returns `[]`
without reading the file. -/
def parse_gif_duration_pillow_fallback (pillow_delays : List ℕ) : List ℕ :=
  if pillow_delays ≠ [] then pillow_delays else []

/-- `get_gif_duration` (`src/mycat/main.py`, lines 244-270).  `parsed` is
the result of `parse_gif_duration_pillow_fallback` when the extracted GIF
path exists (and `[]` when it does not); `frame_count` is
`movie.frameCount()`.  Returns total duration in seconds and the per-frame
delay table in milliseconds. -/
def get_gif_duration (parsed : List ℕ) (frame_count : ℕ) : ℚ × List ℕ :=
  if parsed ≠ [] then ((parsed.sum : ℚ) / 1000, parsed)
  else if 0 < frame_count then
    ((frame_count : ℚ) * (1/10), List.replicate frame_count 100)
  else (0, [])

/-- Python `int()` truncation toward zero on a rational. -/
def py_int_trunc (q : ℚ) : ℤ := if 0 ≤ q then ⌊q⌋ else ⌈q⌉

/-- The frame-delay fallback in `PixelCatWindow.__init__`
(`src/mycat/main.py`, lines 552-557): when `get_gif_duration` produced no
delay table, derive one from the duration when possible, else default to a
single 100 ms entry. -/
def init_frame_delays (gif_duration : ℚ) (delays : List ℕ) (frame_count : ℕ) :
    List ℤ :=
  if delays ≠ [] then delays.map (fun d => (d : ℤ))
  else if 0 < frame_count ∧ 0 < gif_duration then
    List.replicate frame_count (py_int_trunc (gif_duration / frame_count * 1000))
  else [100]

/-! ### GIF-variant animation engine (`src/mycat/main.py`,
`PixelCatWindow._on_tick`, `_on_animation_frame`,
`_complete_switch_to_png`) -/

/-- The value of `self.state` in the GIF-variant window: the source uses
the strings "png" and "gif". -/
inductive AnimPhase
  | png
  | gif
deriving DecidableEq, Repr

/-- What `self.current_pixmap` shows: the static first-frame PNG, or the
GIF frame with the given index.  Pixmaps are assumed non-null (the null
branches in the source only skip the display update for broken assets). -/
inductive CatPixmap
  | staticPng
  | gifFrame (i : ℕ)
deriving DecidableEq, Repr

/-- Fixed per-cycle data of the GIF window: `movie.frameCount()`, the
delay table `self.frame_delays`, and `self.wait_time`. -/
structure GifConfig where
  frame_count : ℕ
  frame_delays : List ℕ
  wait_time : ℚ
deriving DecidableEq, Repr

/-- The mutable state of the GIF window.  `timer_active` models whether
`self.animation_timer` is running (a started QTimer keeps firing until
`stop()`), `pending_switch` models an in-flight
`QTimer.singleShot(50, self._complete_switch_to_png)`, and `shown` is an
event log of the GIF frame indices displayed (`self.update()` after
`jumpToFrame`) during the current cycle — it is ghost instrumentation, not
program state. -/
structure GifWindow where
  state : AnimPhase
  current_frame : ℕ
  next_change : ℚ
  current_pixmap : CatPixmap
  timer_active : Bool
  pending_switch : Bool
  shown : List ℕ
deriving DecidableEq, Repr

/-- `PixelCatWindow._on_tick` (`src/mycat/main.py`, lines 771-816): in the
"png" state, once `now >= next_change`, switch to the "gif" state, reload
the static pixmap, recreate the movie, reset the frame counter to 0 and
start the manual animation timer.  In the "gif" state the tick does
nothing.  (The ghost log is cleared for the new cycle.) -/
def gif_on_tick (_cfg : GifConfig) (now : ℚ) (s : GifWindow) : GifWindow :=
  match s.state with
  | .png =>
      if s.next_change ≤ now then
        { s with
          state := .gif
          current_pixmap := .staticPng
          current_frame := 0
          timer_active := true
          shown := [] }
      else s
  | .gif => s

/-- `PixelCatWindow._on_animation_frame` (`src/mycat/main.py`, lines
818-856): once `current_frame` has reached `frame_count`, stop the timer
and schedule `_complete_switch_to_png`; otherwise jump to and display
frame `current_frame`, then advance the counter (restarting the timer with
the next delay only changes its interval, not whether it runs). -/
def gif_on_animation_frame (cfg : GifConfig) (s : GifWindow) : GifWindow :=
  if cfg.frame_count ≤ s.current_frame then
    { s with timer_active := false, pending_switch := true }
  else
    { s with
      current_pixmap := .gifFrame s.current_frame
      shown := s.shown ++ [s.current_frame]
      current_frame := s.current_frame + 1 }

/-- `PixelCatWindow._complete_switch_to_png` (`src/mycat/main.py`, lines
886-903): if still in the "gif" state, return to "png" with a fresh
`next_change = now + wait_time` and the static pixmap reloaded. -/
def gif_complete_switch_to_png (cfg : GifConfig) (now : ℚ) (s : GifWindow) :
    GifWindow :=
  if s.state = .gif then
    { s with
      state := .png
      next_change := now + cfg.wait_time
      current_pixmap := .staticPng
      pending_switch := false }
  else { s with pending_switch := false }

/-! ### Python `str`/`int` on integers -/

/-- The decimal digit character for `d < 10` (`'0'` + d). -/
def digit_char (d : ℕ) : Char := Char.ofNat (48 + d)

/-- Python `str(n)` for a natural `n`: most-significant digit first. -/
def py_str_nat (n : ℕ) : List Char :=
  if n = 0 then ['0'] else (Nat.digits 10 n).reverse.map digit_char

/-- Numeric value of a digit character. -/
def char_val (c : Char) : ℕ := c.toNat - 48

/-- Value of a digit string, most-significant digit first. -/
def py_nat_of_chars (cs : List Char) : ℕ :=
  cs.foldl (fun a c => a * 10 + char_val c) 0

/-- Python `str(i)` for an integer. -/
def py_str_int (i : ℤ) : String :=
  if i < 0 then ⟨'-' :: py_str_nat i.natAbs⟩ else ⟨py_str_nat i.natAbs⟩

/-- Python `int(s)` on character lists, restricted to an optional minus
sign followed by decimal digits (`int()` additionally tolerates
surrounding whitespace, an underscore separator and a plus sign, none of
which `str()` produces); `none` models the `ValueError`. -/
def py_int_of_chars (cs : List Char) : Option ℤ :=
  if cs = [] then none
  else if cs.head? = some '-' then
    (if cs.tail ≠ [] ∧ cs.tail.all Char.isDigit then
      some (-(py_nat_of_chars cs.tail : ℤ))
    else none)
  else
    (if cs.all Char.isDigit then some ((py_nat_of_chars cs : ℤ)) else none)

/-- Python `int(s)` on strings. -/
def py_int_of_string (s : String) : Option ℤ := py_int_of_chars s.data

/-! ### INI configuration persistence (`src/mycat/main.py`) -/

/-- The parsed view of `config.ini`: ordered sections, each an ordered
list of key/value string pairs (`configparser` with its default key
normalization already applied; `ConfigParser.write` then `read` round-trips
this structure). -/
abbrev IniFile := List (String × List (String × String))

/-- Look a key up in one section's pair list. -/
def section_lookup : List (String × String) → String → Option String
  | [], _ => none
  | (k, v) :: rest, key => if k = key then some v else section_lookup rest key

/-- Set a key in one section's pair list, replacing an existing entry in
place or appending a new one. -/
def section_set (kvs : List (String × String)) (key val : String) :
    List (String × String) :=
  match kvs with
  | [] => [(key, val)]
  | (k, v) :: rest =>
      if k = key then (k, val) :: rest else (k, v) :: section_set rest key val

/-- Look up a section's pair list. -/
def ini_section : IniFile → String → Option (List (String × String))
  | [], _ => none
  | (s, kvs) :: rest, sec => if s = sec then some kvs else ini_section rest sec

/-- Look up `ini[sec][key]`. -/
def ini_lookup (ini : IniFile) (sec key : String) : Option String :=
  match ini_section ini sec with
  | none => none
  | some kvs => section_lookup kvs key

/-- `ConfigParser.add_section` when the section is missing (appended at
the end), else the file unchanged. -/
def ini_ensure_section (ini : IniFile) (sec : String) : IniFile :=
  match ini_section ini sec with
  | some _ => ini
  | none => ini ++ [(sec, [])]

/-- `config[sec][key] = val` on a file whose section `sec` exists (the
callers below always ensure it first; a missing section is created so the
function stays total). -/
def ini_set (ini : IniFile) (sec key val : String) : IniFile :=
  match ini with
  | [] => [(sec, [(key, val)])]
  | (s, kvs) :: rest =>
      if s = sec then (s, section_set kvs key val) :: rest
      else (s, kvs) :: ini_set rest sec key val

/-- `save_config` (`src/mycat/main.py`, lines 429-453): read the existing
INI (the argument; an absent file reads as `[]`), ensure the `[window]`
section, store `str(x)` / `str(y)` for the keys present in the argument
dict, write back. -/
def save_config (x : Option ℤ) (y : Option ℤ) (ini : IniFile) : IniFile :=
  let ini1 := ini_ensure_section ini "window"
  let ini2 := match x with
    | some xv => ini_set ini1 "window" "x" (py_str_int xv)
    | none => ini1
  match y with
  | some yv => ini_set ini2 "window" "y" (py_str_int yv)
  | none => ini2

/-- `load_config` (`src/mycat/main.py`, lines 404-426): default to the
bottom-right corner with a 10 px offset; override each coordinate from
`[window]` when present and parseable.  A `ValueError` from `int()` on `x`
aborts the block before `y` is read (the enclosing `except` keeps the
defaults gathered so far); `ini = none` models a missing config file. -/
def load_config (screen_w screen_h window_w window_h : ℤ)
    (ini : Option IniFile) : ℤ × ℤ :=
  let dx := screen_w - window_w - 10
  let dy := screen_h - window_h - 10
  match ini with
  | none => (dx, dy)
  | some file =>
      match ini_lookup file "window" "x" with
      | none =>
          match ini_lookup file "window" "y" with
          | none => (dx, dy)
          | some ys =>
              match py_int_of_string ys with
              | none => (dx, dy)
              | some y => (dx, y)
      | some xs =>
          match py_int_of_string xs with
          | none => (dx, dy)
          | some x =>
              match ini_lookup file "window" "y" with
              | none => (x, dy)
              | some ys =>
                  match py_int_of_string ys with
                  | none => (x, dy)
                  | some y => (x, y)

/-- `save_image_to_ini` (`src/mycat/main.py`, lines 478-502): read the
existing INI, ensure `[settings]`, store the image name under
`default_image`, write back. -/
def save_image_to_ini (image_name : String) (ini : IniFile) : IniFile :=
  ini_set (ini_ensure_section ini "settings") "settings" "default_image"
    image_name

/-- `load_image_from_ini` (`src/mycat/main.py`, lines 456-475): the stored
`[settings] default_image`, if any. -/
def load_image_from_ini (ini : Option IniFile) : Option String :=
  match ini with
  | none => none
  | some file => ini_lookup file "settings" "default_image"

/-! ### JSON position persistence (`src/main.py`) -/

/-- The parsed view of the blink variant's `config.json`: a JSON object
with integer values (`json.dumps` then `json.loads` round-trips it). -/
abbrev PosFile := List (String × ℤ)

/-- `PixelCatWindow.save_pos` (`src/main.py`, lines 199-205): the written
file content. -/
def save_pos (x y : ℤ) : PosFile := [("x", x), ("y", y)]

/-- Key lookup in the parsed JSON object (`data.get`). -/
def pos_lookup : PosFile → String → Option ℤ
  | [], _ => none
  | (k, v) :: rest, key => if k = key then some v else pos_lookup rest key

/-- `PixelCatWindow.load_pos` (`src/main.py`, lines 187-197): the
coordinates the window moves to; `none` models a missing config file (or a
read error), each missing key defaults to 100. -/
def load_pos (file : Option PosFile) : ℤ × ℤ :=
  match file with
  | none => (100, 100)
  | some data => ((pos_lookup data "x").getD 100, (pos_lookup data "y").getD 100)

/-! ### Asset-loading failures and exit codes (`src/main.py` `main`,
`src/mycat/main.py` `load_packaged_images` and `main`) -/

/-- `f.lower().endswith('.gif')` on an archive member name. -/
def ends_with_lower_gif (f : String) : Bool :=
  List.isSuffixOf ".gif".data (f.data.map Char.toLower)

/-- The exceptions `load_packaged_images` can raise: `FileNotFoundError`
for a missing ZIP, `ValueError` for a bad ZIP (re-raised from
`zipfile.BadZipFile`), for an archive without a GIF member, and for null
pixmaps. -/
inductive LoadImagesError
  | zipNotFound
  | badZipFile
  | noGifInZip
  | nullFirstFrame
  | nullStaticPng
deriving DecidableEq, Repr

/-- Abstraction of the resolved ZIP asset on disk: whether the path
exists, whether `zipfile` can open it, its member name list, and whether
Qt produces non-null pixmaps from the extracted GIF. -/
structure ZipAsset where
  zip_exists : Bool
  readable : Bool
  names : List String
  first_frame_ok : Bool
  static_png_ok : Bool
deriving DecidableEq, Repr

/-- `load_packaged_images` (`src/mycat/main.py`, lines 323-401) on the
resolved ZIP path: missing path raises `FileNotFoundError`; an unreadable
archive raises `ValueError` (from `BadZipFile`); an archive whose name
list holds no member ending in `.gif` (case-insensitively) raises
`ValueError`; null pixmaps raise `ValueError`; otherwise the first GIF
member is extracted and returned. -/
def load_packaged_images (asset : ZipAsset) : Except LoadImagesError String :=
  if !asset.zip_exists then .error .zipNotFound
  else if !asset.readable then .error .badZipFile
  else
    match asset.names.filter ends_with_lower_gif with
    | [] => .error .noGifInZip
    | g :: _ =>
        if !asset.first_frame_ok then .error .nullFirstFrame
        else if !asset.static_png_ok then .error .nullStaticPng
        else .ok g

/-- The asset-loading part of the GIF variant's `main`
(`src/mycat/main.py`, lines 1019-1025): any exception from
`load_packaged_images` is logged (`logger.error`, the Bool) and the
process exits with status 2; on success it continues (`none`). -/
def gif_main_asset_exit (asset : ZipAsset) : Option (ℕ × Bool) :=
  match load_packaged_images asset with
  | .error _ => some (2, true)
  | .ok _ => none

/-- The GTK variant's `main` (`src/main.py`, lines 278-291): a nonexistent
`--image` path prints the error and exits 1; a sprite that
`slice_sprite_to_pixbufs` fails to load prints the error and exits 2;
otherwise the window runs (`none`). -/
def gtk_main_exit (sprite_exists sprite_loads : Bool) : Option (ℕ × Bool) :=
  if !sprite_exists then some (1, true)
  else if !sprite_loads then some (2, true)
  else none

/-! ### Chat backends (`src/mycat/llm_ollama.py`, `src/mycat/llm_openai.py`) -/

/-- The character class stripped by Python `str.strip()` (ASCII part). -/
def is_py_space (c : Char) : Bool :=
  c = ' ' || c = '\t' || c = '\n' || c = '\r' || c = '\x0B' || c = '\x0C'

/-- Python `s.strip()` on character lists. -/
def py_strip_chars (cs : List Char) : List Char :=
  ((cs.dropWhile is_py_space).reverse.dropWhile is_py_space).reverse

/-- Python `s.strip()` on strings. -/
def py_strip (s : String) : String := ⟨py_strip_chars s.data⟩

/-- JSON values as produced by `json.loads` / consumed by `json.dumps`. -/
inductive Json where
  | null
  | bool (b : Bool)
  | num (n : ℤ)
  | str (s : String)
  | arr (elems : List Json)
  | obj (fields : List (String × Json))

/-- Key lookup in a JSON object's field list. -/
def json_fields_lookup : List (String × Json) → String → Option Json
  | [], _ => none
  | (k, v) :: rest, key => if k = key then some v else json_fields_lookup rest key

/-- Python `d.get(key)` on a parsed JSON value, defined (as `none`) only
for objects; the code below pairs it with `getD` for the `.get(key,
default)` form.  (On a non-dict Python raises `AttributeError`; the
claims below only concern object-shaped responses.) -/
def json_get (j : Json) (key : String) : Option Json :=
  match j with
  | .obj fields => json_fields_lookup fields key
  | _ => none

/-- The key list of a JSON object. -/
def json_keys (j : Json) : List String :=
  match j with
  | .obj fields => fields.map Prod.fst
  | _ => []

/-- Python truthiness of a JSON value (`message or ""` uses it). -/
def json_falsy : Json → Bool
  | .null => true
  | .bool b => !b
  | .num n => n = 0
  | .str s => s = ""
  | .arr elems => elems.isEmpty
  | .obj fields => fields.isEmpty

/-- The JSON body `OllamaBackend.reply` posts (`src/mycat/llm_ollama.py`,
lines 20-27): keys `model`, `messages` (system prompt then user text) and
`stream` (false), in this order. -/
def ollama_payload (model user_text system_prompt : String) : Json :=
  .obj [("model", .str model),
        ("messages", .arr
          [.obj [("role", .str "system"), ("content", .str system_prompt)],
           .obj [("role", .str "user"), ("content", .str user_text)]]),
        ("stream", .bool false)]

/-- Outcome of `urllib.request.urlopen` on the POST: an `HTTPError`, a
`URLError`, or a decoded response body. -/
inductive HttpResult where
  | httpError (code : ℤ) (detail : String)
  | urlError (reason : String)
  | okResponse (raw : String)

/-- The response handling of `OllamaBackend.reply`
(`src/mycat/llm_ollama.py`, lines 36-56).  `parse` stands for
`json.loads` (`none` = `JSONDecodeError`) and `stringify` for Python
`str()` on truthy non-string values; `.error` models the `RuntimeError`
raises. -/
def ollama_handle_response (parse : String → Option Json)
    (stringify : Json → String) (raw : String) : Except String String :=
  match parse raw with
  | none => .error "Ollama returned invalid JSON"
  | some body =>
      let message := (json_get body "message").getD (.obj [])
      let content := (json_get message "content").getD (.str "")
      let text := match content with
        | .str s => py_strip s
        | c => py_strip (if json_falsy c then "" else stringify c)
      if text = "" then .error "Ollama response did not contain any text"
      else .ok text

/-- The outer error dispatch of `OllamaBackend.reply`. -/
def ollama_reply (parse : String → Option Json) (stringify : Json → String)
    (result : HttpResult) : Except String String :=
  match result with
  | .httpError code detail =>
      .error ("Ollama HTTP error " ++ py_str_int code ++ ": " ++ detail)
  | .urlError reason => .error ("Ollama connection error: " ++ reason)
  | .okResponse raw => ollama_handle_response parse stringify raw

/-- The extraction in `OpenAIBackend.reply` (`src/mycat/llm_openai.py`,
lines 31-42) applied to `choices[0].message.content`: strings are
stripped; content-part lists are joined with spaces after stripping each
dict chunk's `text`; anything else goes through `str(message or "")`. -/
def openai_reply (stringify : Json → String) (content : Json) : String :=
  match content with
  | .str s => py_strip s
  | .arr chunks =>
      py_strip (String.intercalate " "
        (chunks.filterMap (fun c =>
          match c with
          | .obj fields =>
              some (py_strip
                (match (json_fields_lookup fields "text").getD (.str "") with
                 | .str t => t
                 | j => stringify j))
          | _ => none)))
  | c => py_strip (if json_falsy c then "" else stringify c)

/-! ### Chat history persistence (`src/mycat/llm_prompt.py`) -/

/-- Character-list strings, used where the proofs recurse over text. -/
abbrev Chars := List Char

/-- The lines produced by iterating over a Python text file: maximal
chunks, each with its trailing newline removed by the parser's
`rstrip('\n')`; a trailing newline ends the last line rather than opening
an empty one. -/
def py_lines : Chars → List Chars
  | [] => []
  | c :: cs =>
      if c = '\n' then [] :: py_lines cs
      else
        match py_lines cs with
        | [] => [[c]]
        | l :: ls => (c :: l) :: ls

/-- Splitting on newlines where the end of input also closes a (possibly
empty) chunk: the lines of a text that is about to gain a trailing
newline. -/
def split_nl : Chars → List Chars
  | [] => [[]]
  | c :: cs =>
      if c = '\n' then [] :: split_nl cs
      else
        match split_nl cs with
        | [] => [[c]]
        | l :: ls => (c :: l) :: ls

/-- Python `"\n".join(buffer)`. -/
def join_nl : List Chars → Chars
  | [] => []
  | [l] => l
  | l :: ls => l ++ '\n' :: join_nl ls

/-- Python `s.rstrip("\n")` (the '\n' is spelled as a character). -/
def rstrip_nl (cs : Chars) : Chars :=
  (cs.reverse.dropWhile (fun c => c = '\n')).reverse

/-- Matching the `\s+(REQUEST|RESPONSE):$` part of `HISTORY_HEADER_RE`
after the closing bracket: at least one whitespace character, then
exactly the label and a colon up to the end (the labels start with a
non-space character, so the regex backtracking over maximal-munch
whitespace is equivalent). -/
def tail_match (cs : Chars) : Option Bool :=
  match cs with
  | [] => none
  | c :: rest =>
      if is_py_space c then
        if rest.dropWhile is_py_space = "REQUEST:".data then some true
        else if rest.dropWhile is_py_space = "RESPONSE:".data then some false
        else none
      else none

/-- The lazy `(.+?)\]` scan of `HISTORY_HEADER_RE` after the opening
bracket: at each candidate `]` with a nonempty group so far, test the
remainder; accept the earliest match, abort on a newline (which `.`
cannot match). -/
def scan_close : Chars → Chars → Option (Chars × Bool)
  | _, [] => none
  | g, c :: rest =>
      if c = '\n' then none
      else if c = ']' then
        (if g = [] then scan_close (c :: g) rest
         else
           match tail_match rest with
           | some isReq => some (g.reverse, isReq)
           | none => scan_close (c :: g) rest)
      else scan_close (c :: g) rest

/-- `HISTORY_HEADER_RE.match` (`src/mycat/llm_prompt.py`, line 33):
`^\[(.+?)\]\s+(REQUEST|RESPONSE):$` on a newline-free line; the result is
the timestamp group and whether the label was REQUEST. -/
def match_header (line : Chars) : Option (Chars × Bool) :=
  match line with
  | [] => none
  | c :: rest => if c = '[' then scan_close [] rest else none

/-- The parser's role for a label (`role = "user" if label == "REQUEST"
else "cat"`). -/
def role_of_label (isReq : Bool) : String := if isReq then "user" else "cat"

/-- A parsed history entry `(role, text, timestamp)`. -/
abbrev HistEntry := String × Chars × Chars

/-- The `flush()` closure of `parse_history_file`
(`src/mycat/llm_prompt.py`, lines 146-152): emit the pending entry, if
any, with the buffered lines joined and right-stripped of newlines. -/
def flush_entry (cur : Option (Bool × Chars)) (buf : List Chars) :
    List HistEntry :=
  match cur with
  | some (isReq, ts) => [(role_of_label isReq, rstrip_nl (join_nl buf), ts)]
  | none => []

/-- The line loop of `parse_history_file` (`src/mycat/llm_prompt.py`,
lines 154-167): a header line (matched after stripping) flushes the
pending entry and starts a new one with the stripped timestamp group; any
other line joins the buffer; the end of input flushes. -/
def parse_lines :
    List Chars → Option (Bool × Chars) → List Chars → List HistEntry
  | [], cur, buf => flush_entry cur buf
  | l :: ls, cur, buf =>
      match match_header (py_strip_chars l) with
      | some (ts, isReq) =>
          flush_entry cur buf ++
            parse_lines ls (some (isReq, py_strip_chars ts)) []
      | none => parse_lines ls cur (buf ++ [l])

/-- `parse_history_file` on a file's character content. -/
def parse_history_file (file : Chars) : List HistEntry :=
  parse_lines (py_lines file) none []

/-- `label = "REQUEST" if role == "user" else "RESPONSE"`. -/
def history_label (role : String) : Chars :=
  if role = "user" then "REQUEST".data else "RESPONSE".data

/-- The header line `[timestamp] LABEL:` of one appended block. -/
def header_chars (role : String) (ts : Chars) : Chars :=
  '[' :: (ts ++ ']' :: ' ' :: (history_label role ++ [':']))

/-- `append_history_entry` (`src/mycat/llm_prompt.py`, lines 174-182):
append `"[timestamp] LABEL:\n" + text + "\n"` to the file. -/
def append_history_entry (file : Chars) (role : String) (text ts : Chars) :
    Chars :=
  file ++ (header_chars role ts ++ '\n' :: (text ++ ['\n']))

/-- Appending a sequence of entries in order. -/
def append_entries (file : Chars) : List HistEntry → Chars
  | [] => file
  | (r, tx, ts) :: es => append_entries (append_history_entry file r tx ts) es

/-- The file content contributed by one entry. -/
def block_chars (e : HistEntry) : Chars :=
  header_chars e.1 e.2.2 ++ '\n' :: (e.2.1 ++ ['\n'])

/-- The concatenated blocks of a sequence of entries. -/
def blocks : List HistEntry → Chars
  | [] => []
  | e :: es => block_chars e ++ blocks es

/-- The well-formedness the round trip needs: role is `user` or `cat`;
no line of the text header-matches after stripping; the text does not end
in a newline; the timestamp is nonempty, newline-free and unchanged by
stripping. -/
def good_history_entry (e : HistEntry) : Prop :=
  (e.1 = "user" ∨ e.1 = "cat") ∧
  (∀ l ∈ split_nl e.2.1, match_header (py_strip_chars l) = none) ∧
  e.2.1.getLast? ≠ some '\n' ∧
  e.2.2 ≠ [] ∧ ('\n' ∉ e.2.2) ∧ py_strip_chars e.2.2 = e.2.2

instance good_history_entry_decidable (e : HistEntry) :
    Decidable (good_history_entry e) := by
  unfold good_history_entry
  infer_instance

/-! ### Theorems -/

/-- C2: in the two-frame blink engine, a tick at a time past `next_change`
switches an open-eyes window to the closed-eyes pixbuf with
`next_change = now + closed_sec`, switches a closed-eyes window back to the
open-eyes pixbuf with `next_change = now + open_sec`, and a tick before
`next_change` changes nothing. -/
theorem blink_tick_spec (cfg : BlinkConfig) (s : BlinkState) (now : ℚ) :
    (s.next_change ≤ now → s.state = .openEyes →
      on_tick cfg now s =
        { state := .closedEyes, current := .closedPb
          next_change := now + cfg.closed_sec }) ∧
    (s.next_change ≤ now → s.state = .closedEyes →
      on_tick cfg now s =
        { state := .openEyes, current := .openPb
          next_change := now + cfg.open_sec }) ∧
    (now < s.next_change → on_tick cfg now s = s) := by
  refine ⟨fun h hs => ?_, fun h hs => ?_, fun h => ?_⟩
  · simp [on_tick, h, hs]
  · simp [on_tick, h, hs]
  · simp [on_tick, not_le.mpr h]

/-- Witness for `blink_tick_spec` at concrete inputs. -/
theorem blink_tick_spec_witness :
    on_tick ⟨5, 1⟩ 10 ⟨.openEyes, .openPb, 7⟩ = ⟨.closedEyes, .closedPb, 11⟩ ∧
    on_tick ⟨5, 1⟩ 12 ⟨.closedEyes, .closedPb, 11⟩ = ⟨.openEyes, .openPb, 17⟩ ∧
    on_tick ⟨5, 1⟩ 12 ⟨.openEyes, .openPb, 17⟩ = ⟨.openEyes, .openPb, 17⟩ := by
  refine ⟨?_, ?_, ?_⟩
  · exact ((blink_tick_spec ⟨5, 1⟩ ⟨.openEyes, .openPb, 7⟩ 10).1
      (by norm_num) rfl).trans (by norm_num)
  · exact ((blink_tick_spec ⟨5, 1⟩ ⟨.closedEyes, .closedPb, 11⟩ 12).2.1
      (by norm_num) rfl).trans (by norm_num)
  · exact (blink_tick_spec ⟨5, 1⟩ ⟨.openEyes, .openPb, 17⟩ 12).2.2 (by norm_num)

/-- C5: effective blink timings are clamped to at least 0.05 s for every
CLI value (zero and negative included); in the manual GIF parser a nonzero
encoded duration below 0.01 s is clamped to 0.1 s, and a zero encoded
delay takes the 0.1 s default. -/
theorem timing_clamp_spec :
    (∀ v : ℚ, 1/20 ≤ effective_blink_sec v) ∧
    (∀ v : ℚ, effective_blink_sec v = max (1/20) v) ∧
    (∀ d : ℚ, 0 < d → d < 1/100 → clamp_gce_duration d = 1/10) ∧
    gce_delay_duration 0 = 1/10 := by
  refine ⟨fun v => le_max_left _ _, fun v => rfl, fun d _ hd => ?_, rfl⟩
  unfold clamp_gce_duration
  rw [if_pos hd]

/-- Witness for `timing_clamp_spec` at concrete inputs. -/
theorem timing_clamp_spec_witness :
    1/20 ≤ effective_blink_sec (-3) ∧
    clamp_gce_duration (1/200) = 1/10 ∧
    gce_delay_duration 0 = 1/10 :=
  ⟨timing_clamp_spec.1 (-3),
   timing_clamp_spec.2.2.1 (1/200) (by norm_num) (by norm_num),
   timing_clamp_spec.2.2.2⟩

/-- C3: missing GIF frame-delay data defaults to 100 ms — a frame whose
Pillow info lacks a `duration` entry contributes 100 ms; when no per-frame
delays parse but the movie reports a positive frame count, the table is
`[100]` repeated `frame_count` times with estimated duration
`frame_count * 0.1` s; and when the frame count is unusable too, the
window's delay table defaults to the single entry `[100]`. -/
theorem gif_delay_defaults_spec :
    (∀ (frames : List (Option ℕ)) (i : ℕ), frames.get? i = some none →
      (parse_gif_frame_delays (some frames)).get? i = some 100) ∧
    (∀ frame_count : ℕ, 0 < frame_count →
      get_gif_duration [] frame_count =
        ((frame_count : ℚ) * (1/10), List.replicate frame_count 100)) ∧
    (init_frame_delays (get_gif_duration [] 0).1 (get_gif_duration [] 0).2 0 =
      [100]) := by
  refine ⟨fun frames i hi => ?_, fun fc hfc => ?_, ?_⟩
  · rw [List.get?_eq_getElem?] at hi ⊢
    unfold parse_gif_frame_delays
    rw [List.getElem?_map, hi]
    rfl
  · simp [get_gif_duration, hfc]
  · rfl

/-- Witness for `gif_delay_defaults_spec` at concrete inputs. -/
theorem gif_delay_defaults_spec_witness :
    (parse_gif_frame_delays (some [some 40, none, some 60])).get? 1 = some 100 ∧
    get_gif_duration [] 3 = (3 * (1/10), [100, 100, 100]) := by
  constructor
  · exact gif_delay_defaults_spec.1 [some 40, none, some 60] 1 rfl
  · exact (gif_delay_defaults_spec.2.1 3 (by norm_num)).trans (by
      norm_num [List.replicate])

/-- C4 evidence: whenever the Pillow parse yields no delays (here: Pillow
unavailable, `parse_gif_frame_delays` returning `[]`),
`parse_gif_duration_pillow_fallback` returns `[]` — no delays are
recovered from the file's Graphic Control Extension blocks, because the
manual-parsing fallback its docstring promises is an empty stub. -/
theorem pillow_fallback_is_stub :
    parse_gif_duration_pillow_fallback (parse_gif_frame_delays none) = [] ∧
    (∀ pillow_delays : List ℕ,
      parse_gif_duration_pillow_fallback pillow_delays = pillow_delays) := by
  refine ⟨rfl, fun pillow_delays => ?_⟩
  unfold parse_gif_duration_pillow_fallback
  split <;> simp_all

/-- Unfolding lemma: the tick fires the png→gif transition once the
countdown has expired. -/
theorem gif_on_tick_expired (cfg : GifConfig) (now : ℚ) (s : GifWindow)
    (hpng : s.state = .png) (ht : s.next_change ≤ now) :
    gif_on_tick cfg now s =
      { s with
        state := .gif
        current_pixmap := .staticPng
        current_frame := 0
        timer_active := true
        shown := [] } := by
  unfold gif_on_tick
  rw [hpng]
  exact if_pos ht

/-- Unfolding lemma: the tick is a no-op in the png state before the
countdown expires. -/
theorem gif_on_tick_early (cfg : GifConfig) (now : ℚ) (s : GifWindow)
    (hpng : s.state = .png) (ht : now < s.next_change) :
    gif_on_tick cfg now s = s := by
  unfold gif_on_tick
  rw [hpng]
  exact if_neg (not_le.mpr ht)

/-- Unfolding lemma: the tick is a no-op in the gif state. -/
theorem gif_on_tick_gif (cfg : GifConfig) (now : ℚ) (s : GifWindow)
    (hgif : s.state = .gif) : gif_on_tick cfg now s = s := by
  unfold gif_on_tick
  rw [hgif]

/-- Unfolding lemma: an animation firing before the last frame displays
the current frame and advances the counter. -/
theorem gif_anim_step_run (cfg : GifConfig) (w : GifWindow)
    (h : w.current_frame < cfg.frame_count) :
    gif_on_animation_frame cfg w =
      { w with
        current_pixmap := .gifFrame w.current_frame
        shown := w.shown ++ [w.current_frame]
        current_frame := w.current_frame + 1 } := by
  unfold gif_on_animation_frame
  exact if_neg (Nat.not_le.mpr h)

/-- Unfolding lemma: the animation firing after the last frame stops the
timer and schedules the switch back to the static image. -/
theorem gif_anim_step_done (cfg : GifConfig) (w : GifWindow)
    (h : cfg.frame_count ≤ w.current_frame) :
    gif_on_animation_frame cfg w =
      { w with timer_active := false, pending_switch := true } := by
  unfold gif_on_animation_frame
  exact if_pos h

/-- Unfolding lemma: completing the switch from the gif state returns to
png with a fresh countdown. -/
theorem gif_complete_from_gif (cfg : GifConfig) (now : ℚ) (w : GifWindow)
    (h : w.state = .gif) :
    gif_complete_switch_to_png cfg now w =
      { w with
        state := .png
        next_change := now + cfg.wait_time
        current_pixmap := .staticPng
        pending_switch := false } := by
  unfold gif_complete_switch_to_png
  rw [if_pos h]

/-- Characterization of `k` animation-timer firings from the state entered
by the png→gif transition. -/
theorem gif_anim_iterate (cfg : GifConfig) (s : GifWindow)
    (h0 : s.current_frame = 0) (hsh : s.shown = []) :
    ∀ k, k ≤ cfg.frame_count →
      ((gif_on_animation_frame cfg)^[k] s).state = s.state ∧
      ((gif_on_animation_frame cfg)^[k] s).current_frame = k ∧
      ((gif_on_animation_frame cfg)^[k] s).shown = List.range k ∧
      ((gif_on_animation_frame cfg)^[k] s).next_change = s.next_change ∧
      ((gif_on_animation_frame cfg)^[k] s).pending_switch = s.pending_switch ∧
      ((gif_on_animation_frame cfg)^[k] s).timer_active = s.timer_active ∧
      (∀ j, k = j + 1 →
        ((gif_on_animation_frame cfg)^[k] s).current_pixmap = .gifFrame j) := by
  intro k
  induction k with
  | zero =>
      intro _
      simp [h0, hsh]
  | succ k ih =>
      intro hk
      obtain ⟨hst, hcf, hshk, hnc, hps, hta, _⟩ := ih (Nat.le_of_succ_le hk)
      have hlt : ((gif_on_animation_frame cfg)^[k] s).current_frame
          < cfg.frame_count := by
        rw [hcf]; exact Nat.lt_of_succ_le hk
      rw [Function.iterate_succ_apply', gif_anim_step_run cfg _ hlt]
      refine ⟨hst, by rw [hcf], ?_, hnc, hps, hta, fun j hj => ?_⟩
      · show ((gif_on_animation_frame cfg)^[k] s).shown ++
          [((gif_on_animation_frame cfg)^[k] s).current_frame]
            = List.range (k + 1)
        rw [hshk, hcf, List.range_succ]
      · show CatPixmap.gifFrame ((gif_on_animation_frame cfg)^[k] s).current_frame
          = CatPixmap.gifFrame j
        rw [hcf]
        exact congrArg CatPixmap.gifFrame (Nat.succ_injective hj)

/-- C1: the GIF-variant cycle.  From a "png" state whose countdown has
expired, the tick enters the "gif" state at frame 0; each animation-timer
firing displays the next frame, in order, so one playthrough shows exactly
frames `0 … frame_count - 1` once each; the firing after the last frame
stops the timer and the scheduled completion returns to the "png" state
showing the static image with a fresh `wait_time` countdown.  Ticks before
the countdown expires change nothing, ticks in the "gif" state change
nothing, the animation step never changes the state field, and the "gif"
state is only ever entered from "png" with an expired countdown. -/
theorem gif_cycle_spec (cfg : GifConfig) (s : GifWindow) (t u : ℚ)
    (hpng : s.state = .png) (ht : s.next_change ≤ t) :
    (gif_on_tick cfg t s).state = .gif ∧
    (gif_on_tick cfg t s).current_frame = 0 ∧
    (gif_on_tick cfg t s).current_pixmap = .staticPng ∧
    (∀ v : ℚ, v < s.next_change → gif_on_tick cfg v s = s) ∧
    (∀ k, k < cfg.frame_count →
      ((gif_on_animation_frame cfg)^[k] (gif_on_tick cfg t s)).current_frame
          = k ∧
      ((gif_on_animation_frame cfg)^[k + 1]
          (gif_on_tick cfg t s)).current_pixmap = .gifFrame k) ∧
    ((gif_on_animation_frame cfg)^[cfg.frame_count + 1]
        (gif_on_tick cfg t s)).shown = List.range cfg.frame_count ∧
    ((gif_on_animation_frame cfg)^[cfg.frame_count + 1]
        (gif_on_tick cfg t s)).state = .gif ∧
    ((gif_on_animation_frame cfg)^[cfg.frame_count + 1]
        (gif_on_tick cfg t s)).timer_active = false ∧
    ((gif_on_animation_frame cfg)^[cfg.frame_count + 1]
        (gif_on_tick cfg t s)).pending_switch = true ∧
    (gif_complete_switch_to_png cfg u
        ((gif_on_animation_frame cfg)^[cfg.frame_count + 1]
          (gif_on_tick cfg t s))).state = .png ∧
    (gif_complete_switch_to_png cfg u
        ((gif_on_animation_frame cfg)^[cfg.frame_count + 1]
          (gif_on_tick cfg t s))).next_change = u + cfg.wait_time ∧
    (gif_complete_switch_to_png cfg u
        ((gif_on_animation_frame cfg)^[cfg.frame_count + 1]
          (gif_on_tick cfg t s))).current_pixmap = .staticPng ∧
    (∀ (v : ℚ) (w : GifWindow), w.state = .gif → gif_on_tick cfg v w = w) ∧
    (∀ (v : ℚ) (w : GifWindow), (gif_on_tick cfg v w).state = .gif →
      w.state = .gif ∨ (w.state = .png ∧ w.next_change ≤ v)) ∧
    (∀ w : GifWindow, (gif_on_animation_frame cfg w).state = w.state) := by
  have hs1 := gif_on_tick_expired cfg t s hpng ht
  have hcf1 : (gif_on_tick cfg t s).current_frame = 0 := by rw [hs1]
  have hsh1 : (gif_on_tick cfg t s).shown = [] := by rw [hs1]
  obtain ⟨hst, hcf, hshk, hnc, hps, hta, _⟩ :=
    gif_anim_iterate cfg (gif_on_tick cfg t s) hcf1 hsh1
      cfg.frame_count le_rfl
  have hfinal : (gif_on_animation_frame cfg)^[cfg.frame_count + 1]
      (gif_on_tick cfg t s) =
      { (gif_on_animation_frame cfg)^[cfg.frame_count] (gif_on_tick cfg t s)
        with timer_active := false, pending_switch := true } := by
    rw [Function.iterate_succ_apply']
    exact gif_anim_step_done cfg _ (le_of_eq hcf.symm)
  have hstate_final : ((gif_on_animation_frame cfg)^[cfg.frame_count + 1]
      (gif_on_tick cfg t s)).state = .gif := by
    rw [hfinal]
    show ((gif_on_animation_frame cfg)^[cfg.frame_count]
      (gif_on_tick cfg t s)).state = .gif
    rw [hst, hs1]
  have hcomp := gif_complete_from_gif cfg u
    ((gif_on_animation_frame cfg)^[cfg.frame_count + 1] (gif_on_tick cfg t s))
    hstate_final
  refine ⟨by rw [hs1], hcf1, by rw [hs1],
    fun v hv => gif_on_tick_early cfg v s hpng hv,
    fun k hk => ?_, ?_, hstate_final, ?_, ?_,
    by rw [hcomp], by rw [hcomp], by rw [hcomp],
    fun v w hw => gif_on_tick_gif cfg v w hw,
    fun v w hw => ?_, fun w => ?_⟩
  · obtain ⟨_, hcfk', _, _, _, _, _⟩ := gif_anim_iterate cfg
      (gif_on_tick cfg t s) hcf1 hsh1 k (le_of_lt hk)
    obtain ⟨_, _, _, _, _, _, hpix⟩ := gif_anim_iterate cfg
      (gif_on_tick cfg t s) hcf1 hsh1 (k + 1) (Nat.succ_le_of_lt hk)
    exact ⟨hcfk', hpix k rfl⟩
  · rw [hfinal]
    exact hshk
  · rw [hfinal]
  · rw [hfinal]
  · cases hstate : w.state with
    | png =>
        by_cases hv : w.next_change ≤ v
        · exact Or.inr ⟨rfl, hv⟩
        · rw [gif_on_tick_early cfg v w hstate (not_le.mp hv), hstate] at hw
          exact absurd hw (by simp)
    | gif => exact Or.inl rfl
  · by_cases hwf : cfg.frame_count ≤ w.current_frame
    · rw [gif_anim_step_done cfg w hwf]
    · rw [gif_anim_step_run cfg w (Nat.not_le.mp hwf)]

/-- Witness for `gif_cycle_spec` at a concrete two-frame configuration. -/
theorem gif_cycle_spec_witness :
    ((gif_on_animation_frame ⟨2, [100, 100], 5⟩)^[3]
        (gif_on_tick ⟨2, [100, 100], 5⟩ 3
          ⟨.png, 0, 3, .staticPng, false, false, []⟩)).shown = [0, 1] ∧
    (gif_complete_switch_to_png ⟨2, [100, 100], 5⟩ 10
        ((gif_on_animation_frame ⟨2, [100, 100], 5⟩)^[3]
          (gif_on_tick ⟨2, [100, 100], 5⟩ 3
            ⟨.png, 0, 3, .staticPng, false, false, []⟩))).state = .png ∧
    (gif_complete_switch_to_png ⟨2, [100, 100], 5⟩ 10
        ((gif_on_animation_frame ⟨2, [100, 100], 5⟩)^[3]
          (gif_on_tick ⟨2, [100, 100], 5⟩ 3
            ⟨.png, 0, 3, .staticPng, false, false, []⟩))).next_change = 15 := by
  have h := gif_cycle_spec ⟨2, [100, 100], 5⟩
    ⟨.png, 0, 3, .staticPng, false, false, []⟩ 3 10 rfl (by norm_num)
  refine ⟨h.2.2.2.2.2.1.trans (by decide), h.2.2.2.2.2.2.2.2.2.1, ?_⟩
  exact h.2.2.2.2.2.2.2.2.2.2.1.trans (by norm_num)

theorem char_val_digit_char {d : ℕ} (hd : d < 10) :
    char_val (digit_char d) = d := by
  interval_cases d <;> decide

theorem digit_char_isDigit {d : ℕ} (hd : d < 10) :
    (digit_char d).isDigit = true := by
  interval_cases d <;> decide

theorem digit_char_ne_minus {d : ℕ} (hd : d < 10) : digit_char d ≠ '-' := by
  interval_cases d <;> decide

theorem py_nat_of_chars_digits (l : List ℕ) (hl : ∀ d ∈ l, d < 10) :
    py_nat_of_chars (l.reverse.map digit_char) = Nat.ofDigits 10 l := by
  induction l with
  | nil => rfl
  | cons d ds ih =>
      have hd : d < 10 := hl d (List.mem_cons_self d ds)
      have hds : ∀ x ∈ ds, x < 10 := fun x hx => hl x (List.mem_cons_of_mem d hx)
      unfold py_nat_of_chars at ih ⊢
      rw [List.reverse_cons, List.map_append, List.foldl_append, ih hds]
      simp [Nat.ofDigits_cons, char_val_digit_char hd]
      ring

theorem py_nat_of_chars_str (n : ℕ) : py_nat_of_chars (py_str_nat n) = n := by
  unfold py_str_nat
  by_cases hn : n = 0
  · rw [if_pos hn, hn]; rfl
  · rw [if_neg hn,
      py_nat_of_chars_digits _ (fun d hd => Nat.digits_lt_base (by norm_num) hd),
      Nat.ofDigits_digits]

theorem py_str_nat_all_digits (n : ℕ) :
    (py_str_nat n).all Char.isDigit = true := by
  unfold py_str_nat
  by_cases hn : n = 0
  · rw [if_pos hn]; rfl
  · rw [if_neg hn, List.all_eq_true]
    intro c hc
    rw [List.mem_map] at hc
    obtain ⟨d, hd, rfl⟩ := hc
    exact digit_char_isDigit
      (Nat.digits_lt_base (by norm_num) (List.mem_reverse.mp hd))

theorem py_str_nat_ne_nil (n : ℕ) : py_str_nat n ≠ [] := by
  unfold py_str_nat
  by_cases hn : n = 0
  · rw [if_pos hn]; simp
  · rw [if_neg hn]
    simp [Nat.digits_ne_nil_iff_ne_zero.mpr hn]

theorem py_str_nat_head_ne_minus (n : ℕ) (c : Char) (cs : List Char)
    (h : py_str_nat n = c :: cs) : c ≠ '-' := by
  have hall := py_str_nat_all_digits n
  rw [h, List.all_cons, Bool.and_eq_true] at hall
  intro hc
  rw [hc] at hall
  exact absurd hall.1 (by decide)

/-- `int(str(i)) = i`: the Python decimal round trip on integers. -/
theorem py_int_of_string_str (i : ℤ) : py_int_of_string (py_str_int i) = some i := by
  unfold py_int_of_string py_str_int
  by_cases hi : i < 0
  · rw [if_pos hi]
    show py_int_of_chars ('-' :: py_str_nat i.natAbs) = some i
    unfold py_int_of_chars
    rw [if_neg (by simp),
      if_pos (show ('-' :: py_str_nat i.natAbs).head? = some '-' by rfl),
      if_pos ⟨py_str_nat_ne_nil i.natAbs, py_str_nat_all_digits i.natAbs⟩,
      List.tail_cons, py_nat_of_chars_str]
    congr 1
    omega
  · rw [if_neg hi]
    show py_int_of_chars (py_str_nat i.natAbs) = some i
    obtain ⟨c, cs, hc⟩ : ∃ c cs, py_str_nat i.natAbs = c :: cs := by
      cases h : py_str_nat i.natAbs with
      | nil => exact absurd h (py_str_nat_ne_nil i.natAbs)
      | cons c cs => exact ⟨c, cs, rfl⟩
    unfold py_int_of_chars
    rw [if_neg (by rw [hc]; simp),
      if_neg (by rw [hc]; simp [py_str_nat_head_ne_minus i.natAbs c cs hc]),
      if_pos (py_str_nat_all_digits i.natAbs), py_nat_of_chars_str]
    congr 1
    omega

theorem section_set_lookup_self (kvs : List (String × String)) (key v : String) :
    section_lookup (section_set kvs key v) key = some v := by
  induction kvs with
  | nil => simp [section_set, section_lookup]
  | cons kv rest ih =>
      obtain ⟨k, w⟩ := kv
      by_cases hk : k = key
      · simp [section_set, section_lookup, hk]
      · simp [section_set, section_lookup, hk, ih]

theorem section_set_lookup_other (kvs : List (String × String))
    (key v key' : String) (h : key' ≠ key) :
    section_lookup (section_set kvs key v) key' = section_lookup kvs key' := by
  induction kvs with
  | nil => simp [section_set, section_lookup, Ne.symm h]
  | cons kv rest ih =>
      obtain ⟨k, w⟩ := kv
      by_cases hk : k = key
      · subst hk
        simp [section_set, section_lookup, Ne.symm h]
      · simp [section_set, section_lookup, hk, ih]

theorem ini_set_lookup_self (ini : IniFile) (sec key v : String) :
    ini_lookup (ini_set ini sec key v) sec key = some v := by
  induction ini with
  | nil =>
      simp [ini_set, ini_lookup, ini_section, section_lookup]
  | cons entry rest ih =>
      obtain ⟨s, kvs⟩ := entry
      by_cases hs : s = sec
      · simp [ini_set, ini_lookup, ini_section, hs, section_set_lookup_self]
      · simp only [ini_set, if_neg hs]
        simpa [ini_lookup, ini_section, hs] using ih

theorem ini_set_lookup_other (ini : IniFile) (sec key v s' k' : String)
    (h : s' ≠ sec ∨ k' ≠ key) :
    ini_lookup (ini_set ini sec key v) s' k' = ini_lookup ini s' k' := by
  induction ini with
  | nil =>
      by_cases hs : sec = s'
      · subst hs
        have hk : k' ≠ key := by
          rcases h with h | h
          · exact absurd rfl h
          · exact h
        simp [ini_set, ini_lookup, ini_section, section_lookup, Ne.symm hk]
      · simp [ini_set, ini_lookup, ini_section, hs]
  | cons entry rest ih =>
      obtain ⟨s, kvs⟩ := entry
      by_cases hsec : s = sec
      · subst hsec
        by_cases hs' : s = s'
        · subst hs'
          have hk : k' ≠ key := by
            rcases h with h | h
            · exact absurd rfl h
            · exact h
          simp [ini_set, ini_lookup, ini_section,
            section_set_lookup_other _ _ _ _ hk]
        · simp [ini_set, ini_lookup, ini_section, hs']
      · by_cases hs' : s = s'
        · subst hs'
          simp [ini_set, ini_lookup, ini_section, hsec]
        · simp only [ini_set, if_neg hsec]
          simpa [ini_lookup, ini_section, hs'] using ih

theorem ini_lookup_append_section (ini : IniFile) (sec s' k' : String)
    (h : ini_section ini sec = none) :
    ini_lookup (ini ++ [(sec, [])]) s' k' = ini_lookup ini s' k' := by
  revert h
  induction ini with
  | nil =>
      intro _
      by_cases hs : sec = s' <;>
        simp [ini_lookup, ini_section, section_lookup, hs]
  | cons entry rest ih =>
      intro h
      obtain ⟨s, kvs⟩ := entry
      simp only [ini_section] at h
      by_cases hsec : s = sec
      · rw [if_pos hsec] at h
        exact absurd h (by simp)
      · rw [if_neg hsec] at h
        by_cases hs' : s = s'
        · simp [ini_lookup, ini_section, hs']
        · simp only [List.cons_append]
          simpa [ini_lookup, ini_section, hs'] using ih h

theorem ini_ensure_lookup (ini : IniFile) (sec s' k' : String) :
    ini_lookup (ini_ensure_section ini sec) s' k' = ini_lookup ini s' k' := by
  unfold ini_ensure_section
  cases hsec : ini_section ini sec with
  | some kvs => rfl
  | none => exact ini_lookup_append_section ini sec s' k' hsec

/-- C6: window-position persistence round-trips.  Saving `x`/`y` with
`save_config` and loading with `load_config` (any screen and window
dimensions, any pre-existing INI content) returns exactly `(x, y)`; in the
GTK variant, `load_pos` after `save_pos` restores the saved coordinates. -/
theorem position_roundtrip_spec :
    (∀ (x y sw sh ww wh : ℤ) (ini : IniFile),
      load_config sw sh ww wh (some (save_config (some x) (some y) ini)) =
        (x, y)) ∧
    (∀ x y : ℤ, load_pos (some (save_pos x y)) = (x, y)) := by
  constructor
  · intro x y sw sh ww wh ini
    have hy : ini_lookup (save_config (some x) (some y) ini) "window" "y" =
        some (py_str_int y) := by
      unfold save_config
      exact ini_set_lookup_self _ _ _ _
    have hx : ini_lookup (save_config (some x) (some y) ini) "window" "x" =
        some (py_str_int x) := by
      unfold save_config
      rw [ini_set_lookup_other _ _ _ _ _ _ (Or.inr (by decide))]
      exact ini_set_lookup_self _ _ _ _
    simp [load_config, hx, hy, py_int_of_string_str]
  · intro x y
    rfl

/-- Witness for `position_roundtrip_spec` at concrete inputs (a negative
coordinate and a pre-existing INI with other sections). -/
theorem position_roundtrip_spec_witness :
    load_config 1920 1080 200 150
        (some (save_config (some (-7)) (some 42)
          [("settings", [("default_image", "dog")])])) = (-7, 42) ∧
    load_pos (some (save_pos 3 (-4))) = (3, -4) :=
  ⟨position_roundtrip_spec.1 (-7) 42 1920 1080 200 150
      [("settings", [("default_image", "dog")])],
   position_roundtrip_spec.2 3 (-4)⟩

/-- C10: saving the window position touches only the `[window]` section —
every key under any other section keeps its value; symmetrically,
`save_image_to_ini` writes only `[settings] default_image`, leaving every
other section/key pair (in particular the stored `[window]` x and y)
unchanged. -/
theorem config_frame_effect_spec :
    (∀ (ini : IniFile) (x y : Option ℤ) (sec key : String), sec ≠ "window" →
      ini_lookup (save_config x y ini) sec key = ini_lookup ini sec key) ∧
    (∀ (ini : IniFile) (name sec key : String),
      sec ≠ "settings" ∨ key ≠ "default_image" →
      ini_lookup (save_image_to_ini name ini) sec key =
        ini_lookup ini sec key) ∧
    (∀ (ini : IniFile) (name key : String),
      ini_lookup (save_image_to_ini name ini) "window" key =
        ini_lookup ini "window" key) := by
  have himg : ∀ (ini : IniFile) (name sec key : String),
      sec ≠ "settings" ∨ key ≠ "default_image" →
      ini_lookup (save_image_to_ini name ini) sec key =
        ini_lookup ini sec key := by
    intro ini name sec key h
    unfold save_image_to_ini
    rw [ini_set_lookup_other _ _ _ _ _ _ h, ini_ensure_lookup]
  refine ⟨?_, himg, fun ini name key =>
    himg ini name "window" key (Or.inl (by decide))⟩
  intro ini x y sec key h
  unfold save_config
  cases y with
  | some yv =>
      rw [ini_set_lookup_other _ _ _ _ _ _ (Or.inl h)]
      cases x with
      | some xv =>
          rw [ini_set_lookup_other _ _ _ _ _ _ (Or.inl h), ini_ensure_lookup]
      | none => exact ini_ensure_lookup _ _ _ _
  | none =>
      cases x with
      | some xv =>
          rw [ini_set_lookup_other _ _ _ _ _ _ (Or.inl h), ini_ensure_lookup]
      | none => exact ini_ensure_lookup _ _ _ _

/-- Witness for `config_frame_effect_spec` at a concrete INI holding
backend settings: saving the position leaves `[settings]` and `[ollama]`
intact, and saving the image name leaves `[window]` intact. -/
theorem config_frame_effect_spec_witness :
    ini_lookup (save_config (some 5) (some 6)
        [("settings", [("default_image", "dog")]),
         ("ollama", [("url", "http://localhost"), ("model", "llama")])])
      "ollama" "model" = some "llama" ∧
    ini_lookup (save_image_to_ini "dog"
        [("window", [("x", "5"), ("y", "6")])]) "window" "x" = some "5" := by
  constructor
  · exact (config_frame_effect_spec.1
      [("settings", [("default_image", "dog")]),
       ("ollama", [("url", "http://localhost"), ("model", "llama")])]
      (some 5) (some 6) "ollama" "model" (by decide)).trans (by decide)
  · exact (config_frame_effect_spec.2.2
      [("window", [("x", "5"), ("y", "6")])] "dog" "x").trans (by decide)

/-- C7: missing or malformed assets exit non-zero with the error reported
first (the Bool component): GTK variant — missing `--image` path exits 1,
a sprite that fails to load exits 2; GIF variant — a missing ZIP, a bad
ZIP, or a ZIP without a GIF member each make `load_packaged_images` raise,
and every such exception makes `main` exit 2. -/
theorem asset_failure_exit_spec :
    (∀ sprite_loads : Bool,
      gtk_main_exit false sprite_loads = some (1, true)) ∧
    gtk_main_exit true false = some (2, true) ∧
    gtk_main_exit true true = none ∧
    (∀ a : ZipAsset, a.zip_exists = false →
      load_packaged_images a = .error .zipNotFound) ∧
    (∀ a : ZipAsset, a.zip_exists = true → a.readable = false →
      load_packaged_images a = .error .badZipFile) ∧
    (∀ a : ZipAsset, a.zip_exists = true → a.readable = true →
      a.names.filter ends_with_lower_gif = [] →
      load_packaged_images a = .error .noGifInZip) ∧
    (∀ (a : ZipAsset) (e : LoadImagesError),
      load_packaged_images a = .error e →
      gif_main_asset_exit a = some (2, true)) := by
  refine ⟨fun l => rfl, rfl, rfl, fun a ha => ?_, fun a ha hr => ?_,
    fun a ha hr hg => ?_, fun a e he => ?_⟩
  · simp [load_packaged_images, ha]
  · simp [load_packaged_images, ha, hr]
  · simp [load_packaged_images, ha, hr, hg]
  · unfold gif_main_asset_exit
    rw [he]

/-- Witness for `asset_failure_exit_spec` at concrete assets. -/
theorem asset_failure_exit_spec_witness :
    gtk_main_exit false true = some (1, true) ∧
    load_packaged_images ⟨true, true, ["readme.txt"], true, true⟩ =
      .error .noGifInZip ∧
    gif_main_asset_exit ⟨false, true, [], true, true⟩ = some (2, true) := by
  refine ⟨asset_failure_exit_spec.1 true, ?_, ?_⟩
  · exact asset_failure_exit_spec.2.2.2.2.2.1
      ⟨true, true, ["readme.txt"], true, true⟩ rfl rfl (by decide)
  · exact asset_failure_exit_spec.2.2.2.2.2.2
      ⟨false, true, [], true, true⟩ .zipNotFound
      (asset_failure_exit_spec.2.2.2.1 ⟨false, true, [], true, true⟩ rfl)

/-- C8: the Ollama backend's JSON body holds exactly the keys `model`,
`messages` and `stream`, with `stream` false and `messages` the system
prompt then the user text; the reply errors on an HTTP failure, on a
connection failure, on an unparseable response, and on a response whose
extracted `message.content` strips to the empty string, and otherwise
returns the whitespace-stripped `message.content`; the OpenAI backend
likewise returns the stripped `choices[0].message.content` string. -/
theorem chat_backend_spec (parse : String → Option Json)
    (stringify : Json → String) (model user_text system_prompt : String) :
    json_keys (ollama_payload model user_text system_prompt) =
      ["model", "messages", "stream"] ∧
    json_get (ollama_payload model user_text system_prompt) "model" =
      some (.str model) ∧
    json_get (ollama_payload model user_text system_prompt) "stream" =
      some (.bool false) ∧
    json_get (ollama_payload model user_text system_prompt) "messages" =
      some (.arr
        [.obj [("role", .str "system"), ("content", .str system_prompt)],
         .obj [("role", .str "user"), ("content", .str user_text)]]) ∧
    (∀ (code : ℤ) (detail : String), ∃ e,
      ollama_reply parse stringify (.httpError code detail) = .error e) ∧
    (∀ reason : String, ∃ e,
      ollama_reply parse stringify (.urlError reason) = .error e) ∧
    (∀ raw : String, parse raw = none →
      ollama_reply parse stringify (.okResponse raw) =
        .error "Ollama returned invalid JSON") ∧
    (∀ (raw : String) (body : Json) (s : String), parse raw = some body →
      json_get ((json_get body "message").getD (.obj [])) "content" =
        some (.str s) →
      (py_strip s ≠ "" →
        ollama_reply parse stringify (.okResponse raw) = .ok (py_strip s)) ∧
      (py_strip s = "" →
        ollama_reply parse stringify (.okResponse raw) =
          .error "Ollama response did not contain any text")) ∧
    (∀ s : String, openai_reply stringify (.str s) = py_strip s) := by
  refine ⟨rfl, rfl, rfl, rfl, fun code detail => ⟨_, rfl⟩,
    fun reason => ⟨_, rfl⟩, fun raw hp => ?_, fun raw body s hp hc => ⟨?_, ?_⟩,
    fun s => rfl⟩
  · show ollama_handle_response parse stringify raw =
      .error "Ollama returned invalid JSON"
    unfold ollama_handle_response
    rw [hp]
  · intro hne
    show ollama_handle_response parse stringify raw = .ok (py_strip s)
    unfold ollama_handle_response
    rw [hp]
    simp only [hc, Option.getD_some]
    rw [if_neg hne]
  · intro he
    show ollama_handle_response parse stringify raw =
      .error "Ollama response did not contain any text"
    unfold ollama_handle_response
    rw [hp]
    simp only [hc, Option.getD_some]
    rw [if_pos he]

/-- Witness for `chat_backend_spec` at a concrete parse oracle and
response. -/
theorem chat_backend_spec_witness :
    ollama_reply
        (fun _ => some (.obj [("message", .obj [("content", .str " hi ")])]))
        (fun _ => "") (.okResponse "raw") = .ok "hi" ∧
    openai_reply (fun _ => "") (.str " hi ") = "hi" := by
  have h := chat_backend_spec
    (fun _ => some (.obj [("message", .obj [("content", .str " hi ")])]))
    (fun _ => "") "m" "u" "s"
  have hs : py_strip " hi " = "hi" := by decide
  constructor
  · have hok := (h.2.2.2.2.2.2.2.1 "raw"
      (.obj [("message", .obj [("content", .str " hi ")])]) " hi "
      rfl rfl).1 (by rw [hs]; decide)
    rw [hok, hs]
  · have hoo := h.2.2.2.2.2.2.2.2 " hi "
    rw [hoo, hs]

theorem py_lines_cons (c : Char) (cs : Chars) :
    py_lines (c :: cs) =
      if c = '\n' then [] :: py_lines cs
      else
        match py_lines cs with
        | [] => [[c]]
        | l :: ls => (c :: l) :: ls := rfl

theorem split_nl_cons (c : Char) (cs : Chars) :
    split_nl (c :: cs) =
      if c = '\n' then [] :: split_nl cs
      else
        match split_nl cs with
        | [] => [[c]]
        | l :: ls => (c :: l) :: ls := rfl

theorem split_nl_ne_nil (cs : Chars) : split_nl cs ≠ [] := by
  cases cs with
  | nil => simp [split_nl]
  | cons c cs =>
      rw [split_nl_cons]
      by_cases hc : c = '\n'
      · simp [hc]
      · rw [if_neg hc]
        cases h : split_nl cs with
        | nil => simp
        | cons l ls => simp

theorem py_lines_append (xs ys : Chars) :
    py_lines (xs ++ '\n' :: ys) = split_nl xs ++ py_lines ys := by
  induction xs with
  | nil =>
      simp only [List.nil_append, py_lines_cons, if_pos rfl]
      rfl
  | cons c cs ih =>
      by_cases hc : c = '\n'
      · subst hc
        rw [List.cons_append, py_lines_cons, split_nl_cons, if_pos rfl,
          if_pos rfl, ih]
        rfl
      · rw [List.cons_append, py_lines_cons, split_nl_cons, if_neg hc,
          if_neg hc, ih]
        cases h : split_nl cs with
        | nil => exact absurd h (split_nl_ne_nil cs)
        | cons l ls => simp

theorem split_nl_no_newline (xs : Chars) (h : '\n' ∉ xs) :
    split_nl xs = [xs] := by
  induction xs with
  | nil => rfl
  | cons c cs ih =>
      have hc : c ≠ '\n' := fun hb => h (hb ▸ List.mem_cons_self c cs)
      have hcs : '\n' ∉ cs := fun hb => h (List.mem_cons_of_mem c hb)
      rw [split_nl_cons, if_neg hc, ih hcs]

theorem join_nl_split_nl (tx : Chars) : join_nl (split_nl tx) = tx := by
  induction tx with
  | nil => rfl
  | cons c cs ih =>
      rw [split_nl_cons]
      by_cases hc : c = '\n'
      · rw [if_pos hc]
        cases h : split_nl cs with
        | nil => exact absurd h (split_nl_ne_nil cs)
        | cons l ls =>
            rw [h] at ih
            show '\n' :: join_nl (l :: ls) = c :: cs
            rw [ih, hc]
      · rw [if_neg hc]
        cases h : split_nl cs with
        | nil => exact absurd h (split_nl_ne_nil cs)
        | cons l ls =>
            rw [h] at ih
            cases ls with
            | nil =>
                show join_nl [c :: l] = c :: cs
                show c :: l = c :: cs
                rw [show join_nl [l] = l from rfl] at ih
                rw [ih]
            | cons l2 ls2 =>
                show join_nl ((c :: l) :: l2 :: ls2) = c :: cs
                show (c :: l) ++ '\n' :: join_nl (l2 :: ls2) = c :: cs
                rw [List.cons_append,
                  ← show join_nl (l :: l2 :: ls2) = l ++ '\n' :: join_nl (l2 :: ls2)
                    from rfl,
                  ih]

theorem rstrip_nl_no_trailing (tx : Chars) (h : tx.getLast? ≠ some '\n') :
    rstrip_nl tx = tx := by
  unfold rstrip_nl
  cases hrev : tx.reverse with
  | nil =>
      rw [List.reverse_eq_nil_iff] at hrev
      subst hrev
      rfl
  | cons b bs =>
      have hb : tx.getLast? = some b := by
        rw [← List.head?_reverse, hrev]
        rfl
      have hb2 : decide (b = '\n') = false :=
        decide_eq_false (fun hend => h (hend ▸ hb))
      rw [List.dropWhile_cons, hb2]
      simp [← hrev]

theorem mem_dropWhile_of_neg {p : Char → Bool} {a : Char} {l : Chars}
    (ha : a ∈ l) (hpa : p a = false) : a ∈ l.dropWhile p := by
  induction l with
  | nil => cases ha
  | cons x xs ih =>
      rw [List.dropWhile_cons]
      by_cases hx : p x = true
      · rw [if_pos hx]
        rcases List.mem_cons.mp ha with h | h
        · rw [h] at hpa
          rw [hpa] at hx
          cases hx
        · exact ih h
      · rw [if_neg hx]
        exact ha

theorem tail_match_cons (c : Char) (rest : Chars) :
    tail_match (c :: rest) =
      if is_py_space c then
        if rest.dropWhile is_py_space = "REQUEST:".data then some true
        else if rest.dropWhile is_py_space = "RESPONSE:".data then some false
        else none
      else none := rfl

theorem tail_match_of_mem_rbracket (cs : Chars) (h : ']' ∈ cs) :
    tail_match cs = none := by
  cases cs with
  | nil => rfl
  | cons c rest =>
      rw [tail_match_cons]
      by_cases hc : is_py_space c = true
      · rw [if_pos hc]
        have hrest : ']' ∈ rest := by
          rcases List.mem_cons.mp h with h1 | h1
          · rw [← h1] at hc
            exact absurd hc (by decide)
          · exact h1
        have hmem : ']' ∈ rest.dropWhile is_py_space :=
          mem_dropWhile_of_neg hrest (by decide)
        have h1 : rest.dropWhile is_py_space ≠ "REQUEST:".data := by
          intro he
          rw [he] at hmem
          exact absurd hmem (by decide)
        have h2 : rest.dropWhile is_py_space ≠ "RESPONSE:".data := by
          intro he
          rw [he] at hmem
          exact absurd hmem (by decide)
        rw [if_neg h1, if_neg h2]
      · rw [if_neg hc]

theorem scan_close_cons (g : Chars) (c : Char) (rest : Chars) :
    scan_close g (c :: rest) =
      if c = '\n' then none
      else if c = ']' then
        (if g = [] then scan_close (c :: g) rest
         else
           match tail_match rest with
           | some isReq => some (g.reverse, isReq)
           | none => scan_close (c :: g) rest)
      else scan_close (c :: g) rest := rfl

theorem scan_close_spec (lbl : Chars) (isReq : Bool)
    (hlbl : tail_match (' ' :: (lbl ++ [':'])) = some isReq) :
    ∀ ts g : Chars, '\n' ∉ ts → (g ≠ [] ∨ ts ≠ []) →
      scan_close g (ts ++ ']' :: ' ' :: (lbl ++ [':'])) =
        some (g.reverse ++ ts, isReq) := by
  intro ts
  induction ts with
  | nil =>
      intro g _ hne
      have hg : g ≠ [] := by
        rcases hne with h | h
        · exact h
        · exact absurd rfl h
      rw [List.nil_append, scan_close_cons, if_neg (by decide), if_pos rfl,
        if_neg hg, hlbl]
      simp
  | cons t ts ih =>
      intro g hnl hne
      have ht : t ≠ '\n' := fun hb => hnl (hb ▸ List.mem_cons_self t ts)
      have hts : '\n' ∉ ts := fun hb => hnl (List.mem_cons_of_mem t hb)
      rw [List.cons_append, scan_close_cons, if_neg ht]
      by_cases htb : t = ']'
      · rw [if_pos htb]
        by_cases hg : g = []
        · rw [if_pos hg, ih (t :: g) hts (Or.inl (by simp))]
          rw [hg, htb]
          simp
        · rw [if_neg hg,
            tail_match_of_mem_rbracket _ (by simp),
            ih (t :: g) hts (Or.inl (by simp))]
          rw [htb]
          simp
      · rw [if_neg htb, ih (t :: g) hts (Or.inl (by simp))]
        simp

theorem match_header_cons (c : Char) (rest : Chars) :
    match_header (c :: rest) = if c = '[' then scan_close [] rest else none :=
  rfl

theorem match_header_header (role : String) (ts : Chars) (hne : ts ≠ [])
    (hnl : '\n' ∉ ts) :
    match_header (header_chars role ts) =
      some (ts, if role = "user" then true else false) := by
  unfold header_chars
  rw [match_header_cons, if_pos rfl]
  by_cases hr : role = "user"
  · rw [if_pos hr]
    unfold history_label
    rw [if_pos hr,
      scan_close_spec "REQUEST".data true (by decide) ts [] hnl (Or.inr hne)]
    simp
  · rw [if_neg hr]
    unfold history_label
    rw [if_neg hr,
      scan_close_spec "RESPONSE".data false (by decide) ts [] hnl (Or.inr hne)]
    simp

theorem py_strip_chars_eq_self (cs : Chars)
    (h1 : ∀ a, cs.head? = some a → is_py_space a = false)
    (h2 : ∀ a, cs.getLast? = some a → is_py_space a = false) :
    py_strip_chars cs = cs := by
  unfold py_strip_chars
  cases cs with
  | nil => rfl
  | cons c rest =>
      rw [List.dropWhile_cons, h1 c rfl]
      simp only [Bool.false_eq_true, if_false]
      cases hrev : (c :: rest).reverse with
      | nil => exact absurd hrev (by simp)
      | cons b bs =>
          have hb : (c :: rest).getLast? = some b := by
            rw [← List.head?_reverse, hrev]
            rfl
          rw [List.dropWhile_cons, h2 b hb]
          simp [← hrev]

theorem py_strip_header (role : String) (ts : Chars) :
    py_strip_chars (header_chars role ts) = header_chars role ts := by
  have hform : header_chars role ts =
      ('[' :: (ts ++ ']' :: ' ' :: history_label role)) ++ [':'] := by
    simp [header_chars, List.append_assoc]
  apply py_strip_chars_eq_self
  · intro a ha
    unfold header_chars at ha
    simp only [List.head?_cons, Option.some.injEq] at ha
    rw [← ha]
    rfl
  · intro a ha
    rw [hform, List.getLast?_concat] at ha
    simp only [Option.some.injEq] at ha
    rw [← ha]
    rfl

theorem newline_not_mem_header (role : String) (ts : Chars)
    (h : '\n' ∉ ts) : '\n' ∉ header_chars role ts := by
  intro hm
  unfold header_chars at hm
  rcases List.mem_cons.mp hm with h1 | h1
  · exact absurd h1 (by decide)
  · rcases List.mem_append.mp h1 with h2 | h2
    · exact h h2
    · rcases List.mem_cons.mp h2 with h3 | h3
      · exact absurd h3 (by decide)
      · rcases List.mem_cons.mp h3 with h4 | h4
        · exact absurd h4 (by decide)
        · rcases List.mem_append.mp h4 with h5 | h5
          · unfold history_label at h5
            by_cases hr : role = "user"
            · rw [if_pos hr] at h5
              exact absurd h5 (by decide)
            · rw [if_neg hr] at h5
              exact absurd h5 (by decide)
          · exact absurd h5 (by decide)

theorem parse_lines_cons (l : Chars) (ls : List Chars)
    (cur : Option (Bool × Chars)) (buf : List Chars) :
    parse_lines (l :: ls) cur buf =
      match match_header (py_strip_chars l) with
      | some (ts, isReq) =>
          flush_entry cur buf ++
            parse_lines ls (some (isReq, py_strip_chars ts)) []
      | none => parse_lines ls cur (buf ++ [l]) := rfl

theorem parse_lines_text (ls : List Chars)
    (hl : ∀ l ∈ ls, match_header (py_strip_chars l) = none) :
    ∀ (more : List Chars) (cur : Option (Bool × Chars)) (buf : List Chars),
      parse_lines (ls ++ more) cur buf = parse_lines more cur (buf ++ ls) := by
  induction ls with
  | nil =>
      intro more cur buf
      simp
  | cons l ls ih =>
      intro more cur buf
      have h0 : match_header (py_strip_chars l) = none :=
        hl l (List.mem_cons_self _ _)
      have hrest : ∀ x ∈ ls, match_header (py_strip_chars x) = none :=
        fun x hx => hl x (List.mem_cons_of_mem l hx)
      rw [List.cons_append, parse_lines_cons, h0]
      show parse_lines (ls ++ more) cur (buf ++ [l]) =
        parse_lines more cur (buf ++ l :: ls)
      rw [ih hrest more cur (buf ++ [l])]
      simp

theorem parse_lines_blocks (es : List HistEntry)
    (h : ∀ e ∈ es, good_history_entry e) :
    ∀ (cur : Option (Bool × Chars)) (buf : List Chars),
      parse_lines
        (es.flatMap (fun e => header_chars e.1 e.2.2 :: split_nl e.2.1)) cur buf =
        flush_entry cur buf ++ es := by
  induction es with
  | nil =>
      intro cur buf
      simp [parse_lines]
  | cons e es ih =>
      intro cur buf
      obtain ⟨hrole, htext, hlast, hts_ne, hts_nl, hts_strip⟩ :=
        h e (List.mem_cons_self _ _)
      have hrest : ∀ x ∈ es, good_history_entry x :=
        fun x hx => h x (List.mem_cons_of_mem e hx)
      simp only [List.flatMap_cons, List.cons_append]
      rw [parse_lines_cons, py_strip_header e.1 e.2.2,
        match_header_header e.1 e.2.2 hts_ne hts_nl]
      show flush_entry cur buf ++
        parse_lines
          (split_nl e.2.1 ++
            es.flatMap (fun e => header_chars e.1 e.2.2 :: split_nl e.2.1))
          (some ((if e.1 = "user" then true else false), py_strip_chars e.2.2))
          [] = flush_entry cur buf ++ e :: es
      rw [hts_strip, parse_lines_text (split_nl e.2.1) htext _ _ [],
        ih hrest _ _]
      have hflush : flush_entry
          (some ((if e.1 = "user" then true else false), e.2.2))
          ([] ++ split_nl e.2.1) = [e] := by
        unfold flush_entry
        rw [List.nil_append, join_nl_split_nl, rstrip_nl_no_trailing _ hlast]
        rcases hrole with hr | hr
        · rw [hr, if_pos rfl]
          show [(role_of_label true, e.2.1, e.2.2)] = [e]
          rw [show role_of_label true = "user" from rfl, ← hr]
        · rw [hr, if_neg (by decide)]
          show [(role_of_label false, e.2.1, e.2.2)] = [e]
          rw [show role_of_label false = "cat" from rfl, ← hr]
      rw [hflush]
      simp

theorem append_entries_eq_blocks (es : List HistEntry) :
    ∀ file : Chars, append_entries file es = file ++ blocks es := by
  induction es with
  | nil =>
      intro file
      simp [append_entries, blocks]
  | cons e es ih =>
      intro file
      obtain ⟨r, tx, ts⟩ := e
      show append_entries (append_history_entry file r tx ts) es = _
      rw [ih]
      simp [append_history_entry, blocks, block_chars, header_chars,
        List.append_assoc]

theorem py_lines_blocks (es : List HistEntry)
    (h : ∀ e ∈ es, '\n' ∉ e.2.2) :
    py_lines (blocks es) =
      es.flatMap (fun e => header_chars e.1 e.2.2 :: split_nl e.2.1) := by
  induction es with
  | nil => rfl
  | cons e es ih =>
      have hts : '\n' ∉ e.2.2 := h e (List.mem_cons_self _ _)
      have hrest : ∀ x ∈ es, '\n' ∉ x.2.2 :=
        fun x hx => h x (List.mem_cons_of_mem e hx)
      show py_lines (block_chars e ++ blocks es) = _
      have hassoc : block_chars e ++ blocks es =
          header_chars e.1 e.2.2 ++ '\n' :: (e.2.1 ++ '\n' :: blocks es) := by
        simp [block_chars, List.append_assoc]
      rw [hassoc, py_lines_append,
        split_nl_no_newline _ (newline_not_mem_header e.1 e.2.2 hts),
        py_lines_append, ih hrest]
      simp [List.flatMap_cons]

/-- C9 (as stated) fails: an entry whose timestamp is empty — allowed by
the claim, which restricts only the roles and texts — produces the header
line `[] REQUEST:`, which `HISTORY_HEADER_RE` does not match (the group
needs at least one character), so the parse returns `[]` instead of the
entry. -/
theorem history_roundtrip_counterexample :
    parse_history_file (append_entries [] [("user", ['t'], [])]) ≠
      [("user", ['t'], [])] := by decide

/-- C9 amended: the history round trip holds for entries whose role is
`user` or `cat`, whose texts contain no line that matches the header
pattern after stripping and do not end in a newline, and — as the
counterexample forces — whose timestamps are nonempty, newline-free and
carry no leading or trailing whitespace: appending every entry to an
empty file and parsing returns exactly the entry sequence, with `user`
written as REQUEST and `cat` as RESPONSE. -/
theorem history_roundtrip_spec (es : List HistEntry)
    (h : ∀ e ∈ es, good_history_entry e) :
    parse_history_file (append_entries [] es) = es := by
  unfold parse_history_file
  rw [append_entries_eq_blocks, List.nil_append,
    py_lines_blocks es (fun e he => (h e he).2.2.2.2.1),
    parse_lines_blocks es h none []]
  rfl

/-- Witness for `history_roundtrip_spec` on a concrete two-entry
conversation with a multi-line reply. -/
theorem history_roundtrip_spec_witness :
    parse_history_file (append_entries []
      [("user", "hello cat".data, "2024-01-01 10:00".data),
       ("cat", "purr\n\nmeow".data, "2024-01-01 10:01".data)]) =
      [("user", "hello cat".data, "2024-01-01 10:00".data),
       ("cat", "purr\n\nmeow".data, "2024-01-01 10:01".data)] :=
  history_roundtrip_spec
    [("user", "hello cat".data, "2024-01-01 10:00".data),
     ("cat", "purr\n\nmeow".data, "2024-01-01 10:01".data)]
    (by decide)
